import Mathlib

/-!
Verification of the text-preprocessing pipeline of the
Disaster_tweets_classification repository
(`src/Preprocessing_steps_for_LSTM.ipynb`).

The notebook drives `tf.keras.preprocessing.text.Tokenizer` and
`tf.keras.preprocessing.sequence.pad_sequences` on a fixed three-sentence
corpus and records their outputs.  The library implementation is not part of
the repository, so the operations below are modelled from the specification
of the pipeline (vocabulary building by descending frequency with
first-seen tie-breaking, OOV substitution, padding/truncation with a `0`
sentinel); wherever the specification is ambiguous, the concrete outputs
recorded in the notebook cells disambiguate the semantics (in particular the
`num_words` cutoff, which keeps only ids strictly below `num_words`, and the
default truncation side, which is `pre`).
-/

/-- Split a character stream into words at spaces, accumulating the current
word in reverse in `acc`; empty words are not produced. -/
def wordsAux : List Char → List Char → List String
  | [], acc => if acc.isEmpty then [] else [String.mk acc.reverse]
  | c :: cs, acc =>
    if c = ' ' then
      if acc.isEmpty then wordsAux cs []
      else String.mk acc.reverse :: wordsAux cs []
    else wordsAux cs (c :: acc)

/-- Modelled from the spec: word-level tokenization (§4.1 step 1):
lowercase the string and split it into words on whitespace. -/
def text_to_word_sequence (s : String) : List String :=
  wordsAux (s.toList.map Char.toLower) []

/-- Add one occurrence of word `w` to an association list of word counts,
keeping words in order of first appearance. -/
def addWord (w : String) : List (String × Nat) → List (String × Nat)
  | [] => [(w, 1)]
  | (x, c) :: rest => if x = w then (x, c + 1) :: rest else (x, c) :: addWord w rest

/-- Modelled from the spec: count occurrences of each distinct token across
the whole corpus (§4.1 step 2); the resulting association list lists tokens
in order of first appearance. -/
def word_counts (texts : List String) : List (String × Nat) :=
  ((texts.map text_to_word_sequence).flatten).foldl (fun acc w => addWord w acc) []

/-- Insert a counted token into a list sorted by descending count, after all
tokens of greater-or-equal count (so that earlier-seen tokens win ties). -/
def insertByCount (p : String × Nat) : List (String × Nat) → List (String × Nat)
  | [] => [p]
  | q :: rest => if q.2 ≤ p.2 then p :: q :: rest else q :: insertByCount p rest

/-- Modelled from the spec: stable sort by descending count (§4.1 step 3):
ties are broken by order of first appearance. -/
def sortByCountDesc : List (String × Nat) → List (String × Nat)
  | [] => []
  | p :: rest => insertByCount p (sortByCountDesc rest)

/-- The state built by `fit_on_texts`: configuration plus the ranked
vocabulary.  The token at (0-based) position `k` of `sorted_voc` has id
`k + 1`; id `0` is reserved for padding. -/
structure Tokenizer where
  num_words : Option Nat
  oov_token : Option String
  sorted_voc : List String

/-- 1-based position of the first occurrence of `w` in a list. -/
def lookup1 (w : String) : List String → Option Nat
  | [] => none
  | x :: rest => if x = w then some 1 else (lookup1 w rest).map (· + 1)

/-- The token→id mapping of a fitted tokenizer (`tokenizer.word_index`). -/
def Tokenizer.word_index (tk : Tokenizer) (w : String) : Option Nat :=
  lookup1 w tk.sorted_voc

/-- Modelled from the spec: `Tokenizer.fit_on_texts` (§4.1 steps 1-4):
rank tokens by descending corpus frequency with first-seen tie-breaking and
assign ids starting at 2 when an OOV token is configured (id 1 is the OOV
marker), else starting at 1; id 0 is never assigned. -/
def fit_on_texts (num_words : Option Nat) (oov_token : Option String)
    (texts : List String) : Tokenizer :=
  { num_words := num_words
    oov_token := oov_token
    sorted_voc := oov_token.toList ++ (sortByCountDesc (word_counts texts)).map Prod.fst }

/-- The id of the configured OOV marker, if any. -/
def Tokenizer.oov_index (tk : Tokenizer) : Option Nat :=
  tk.oov_token.bind tk.word_index

/-- Modelled from the spec: per-token encoding step of
`Tokenizer.texts_to_sequences` (§4.2).  A token found in the word index
keeps its id unless `num_words` is set and the id is not strictly below it,
in which case the OOV id is substituted (or the token dropped when no OOV
marker is configured); an unknown token gets the OOV id or is dropped.  The
`num_words` cutoff `¬ i < num_words` follows the notebook's recorded output
`[[2, 3, 4, 1, 1], ...]`, where the token with id 5 is mapped to OOV under
`num_words = 5`. -/
def Tokenizer.encode_word (tk : Tokenizer) (w : String) : Option Nat :=
  match tk.word_index w with
  | some i =>
    match tk.num_words with
    | some n => if n ≤ i then tk.oov_index else some i
    | none => some i
  | none => tk.oov_index

/-- Modelled from the spec: encoding of one string by
`Tokenizer.texts_to_sequences` (§4.2): tokenize, then map each token
through `encode_word` in input order, keeping the defined results. -/
def Tokenizer.texts_to_sequences_one (tk : Tokenizer) (text : String) : List Nat :=
  (text_to_word_sequence text).filterMap tk.encode_word

/-- Modelled from the spec: `Tokenizer.texts_to_sequences` over a list of
strings. -/
def Tokenizer.texts_to_sequences (tk : Tokenizer) (texts : List String) :
    List (List Nat) :=
  texts.map tk.texts_to_sequences_one

/-- Which end of a sequence padding or truncation acts on. -/
inductive Side
  | pre
  | post

/-- Modelled from the spec: truncation step of `pad_sequences` (§4.3): a
sequence longer than `maxlen` is cut to `maxlen` elements, dropping from the
front when the side is `pre` and from the back when it is `post`. -/
def truncateTo (maxlen : Nat) (truncating : Side) (s : List Nat) : List Nat :=
  if maxlen < s.length then
    match truncating with
    | .pre => s.drop (s.length - maxlen)
    | .post => s.take maxlen
  else s

/-- Modelled from the spec: `pad_sequences` on a single sequence (§4.3):
truncate to `maxlen`, then extend with the sentinel id `0` on the chosen
side up to exactly `maxlen` elements. -/
def pad_one (maxlen : Nat) (padding truncating : Side) (s : List Nat) : List Nat :=
  let t := truncateTo maxlen truncating s
  match padding with
  | .pre => List.replicate (maxlen - t.length) 0 ++ t
  | .post => t ++ List.replicate (maxlen - t.length) 0

/-- Modelled from the spec: `pad_sequences` over a batch.  The library
defaults are `padding = pre` and `truncating = pre`; the notebook's recorded
output `[3, 7, 4, 8, 9, 10, 11]` for the length-9 third sequence confirms
the `pre` truncation default. -/
def pad_sequences (seqs : List (List Nat)) (maxlen : Nat)
    (padding truncating : Side) : List (List Nat) :=
  seqs.map (pad_one maxlen padding truncating)

/-- The corpus defined in the notebook (`texts = [...]`). -/
def texts : List String :=
  ["This is the first sentence", "This is the second sentence",
   "This is the third sentence which has more words"]

/-- The notebook's first tokenizer: `Tokenizer()` fitted on `texts`. -/
def tokenizer : Tokenizer := fit_on_texts none none texts

/-- The notebook's `sequences = tokenizer.texts_to_sequences(texts)`. -/
def sequences : List (List Nat) := tokenizer.texts_to_sequences texts

/-- The notebook's
`padded_sequences = pad_sequences(sequences, maxlen=7, padding='post')`
(truncation left at its `pre` default). -/
def padded_sequences : List (List Nat) := pad_sequences sequences 7 .post .pre

/-- The notebook's second tokenizer:
`Tokenizer(num_words=5, oov_token='<OOV>')` fitted on `texts`. -/
def tokenizer2 : Tokenizer := fit_on_texts (some 5) (some "<OOV>") texts

/-- The notebook's second `sequences` value, produced by the capped OOV
tokenizer. -/
def sequences2 : List (List Nat) := tokenizer2.texts_to_sequences texts

/-! ## Helper lemmas about padding and truncation -/

theorem truncateTo_length (maxlen : Nat) (t : Side) (s : List Nat) :
    (truncateTo maxlen t s).length = min maxlen s.length := by
  by_cases h : maxlen < s.length
  · cases t
    · simp only [truncateTo, if_pos h, List.length_drop]
      omega
    · simp only [truncateTo, if_pos h, List.length_take]
  · simp only [truncateTo, if_neg h]
    omega

theorem pad_one_length (maxlen : Nat) (p t : Side) (s : List Nat) :
    (pad_one maxlen p t s).length = maxlen := by
  have h := truncateTo_length maxlen t s
  cases p <;> simp only [pad_one, List.length_append, List.length_replicate, h] <;> omega

theorem mem_truncateTo {x : Nat} (maxlen : Nat) (t : Side) (s : List Nat)
    (hx : x ∈ truncateTo maxlen t s) : x ∈ s := by
  by_cases h : maxlen < s.length
  · cases t
    · exact List.drop_subset _ _ (by simpa [truncateTo, h] using hx)
    · exact List.take_subset _ _ (by simpa [truncateTo, h] using hx)
  · simpa [truncateTo, h] using hx

theorem mem_pad_one {x : Nat} (maxlen : Nat) (p t : Side) (s : List Nat)
    (hx : x ∈ pad_one maxlen p t s) : x ∈ s ∨ x = 0 := by
  cases p <;> simp only [pad_one, List.mem_append] at hx <;>
    rcases hx with h | h
  · exact Or.inr (List.eq_of_mem_replicate h)
  · exact Or.inl (mem_truncateTo maxlen t s h)
  · exact Or.inl (mem_truncateTo maxlen t s h)
  · exact Or.inr (List.eq_of_mem_replicate h)

theorem pad_one_of_length_eq (maxlen : Nat) (p t : Side) (s : List Nat)
    (h : s.length = maxlen) : pad_one maxlen p t s = s := by
  have ht : truncateTo maxlen t s = s := by
    simp [truncateTo, h]
  cases p <;> simp [pad_one, ht, h]

/-! ## Claims about padding and truncation -/

/-- Claim C3: for every encoded sequence and every positive `maxlen`, the
padding/truncation operation returns a sequence of length exactly `maxlen`,
and every element of the output that is not carried over from the input
equals `0`. -/
theorem C3_pad_length_and_zero_only (s : List Nat) (maxlen : Nat) (p t : Side)
    (_h : 0 < maxlen) :
    (pad_one maxlen p t s).length = maxlen ∧
      ∀ x ∈ pad_one maxlen p t s, x ∈ s ∨ x = 0 :=
  ⟨pad_one_length maxlen p t s, fun _ hx => mem_pad_one maxlen p t s hx⟩

/-- Concrete instantiation of the C3 invariant at `[1, 2, 3]` and
`maxlen = 7`. -/
theorem C3_witness : 0 < 7 ∧ (pad_one 7 .post .pre [1, 2, 3]).length = 7 :=
  ⟨by decide, (C3_pad_length_and_zero_only [1, 2, 3] 7 .post .pre (by decide)).1⟩

/-- Claim C4 counterexample: the notebook's padding call
(`padding='post'`, truncation left at its `pre` default) truncates the
length-9 third sequence `[1, 2, 3, 7, 4, 8, 9, 10, 11]` from the front:
the result is its last 7 elements, not its first 7 — exactly the row
`[3, 7, 4, 8, 9, 10, 11]` recorded in the notebook's `padded_sequences`
output. -/
theorem C4_counterexample :
    pad_one 7 .post .pre [1, 2, 3, 7, 4, 8, 9, 10, 11] = [3, 7, 4, 8, 9, 10, 11] ∧
    pad_one 7 .post .pre [1, 2, 3, 7, 4, 8, 9, 10, 11] ≠ [1, 2, 3, 7, 4, 8, 9] ∧
    padded_sequences =
      [[1, 2, 3, 5, 4, 0, 0], [1, 2, 3, 6, 4, 0, 0], [3, 7, 4, 8, 9, 10, 11]] :=
  ⟨rfl, by decide, rfl⟩

/-- Claim C4 (amended): the default truncation side is `pre`, so every
sequence at least as long as `maxlen` is truncated by dropping elements from
the front, retaining the last `maxlen` elements of the input in order. -/
theorem C4_default_trunc_keeps_suffix (s : List Nat) (maxlen : Nat) (p : Side)
    (h : maxlen ≤ s.length) :
    pad_one maxlen p .pre s = s.drop (s.length - maxlen) := by
  have ht : truncateTo maxlen .pre s = s.drop (s.length - maxlen) := by
    by_cases hlt : maxlen < s.length
    · simp [truncateTo, hlt]
    · have h0 : s.length - maxlen = 0 := by omega
      simp [truncateTo, hlt, h0]
  have hlen : maxlen - (truncateTo maxlen .pre s).length = 0 := by
    rw [truncateTo_length]; omega
  cases p <;> simp only [pad_one, hlen, List.replicate_zero,
    List.nil_append, List.append_nil] <;> exact ht

/-- Concrete instantiation of the amended C4 at the notebook's third
sequence: padding it to `maxlen = 7` keeps its last 7 elements. -/
theorem C4_witness :
    7 ≤ ([1, 2, 3, 7, 4, 8, 9, 10, 11] : List Nat).length ∧
    pad_one 7 .post .pre [1, 2, 3, 7, 4, 8, 9, 10, 11]
      = ([1, 2, 3, 7, 4, 8, 9, 10, 11] : List Nat).drop
          (([1, 2, 3, 7, 4, 8, 9, 10, 11] : List Nat).length - 7) :=
  ⟨by decide,
   C4_default_trunc_keeps_suffix [1, 2, 3, 7, 4, 8, 9, 10, 11] 7 .post (by decide)⟩

/-- Claim C5: padding `[1, 2, 3]` and `[1, 2, 3, 4, 5]` to length 7 with
`padding_side = post` yields `[1, 2, 3, 0, 0, 0, 0]` and
`[1, 2, 3, 4, 5, 0, 0]`; with `padding_side = pre` it yields
`[0, 0, 0, 0, 1, 2, 3]` and `[0, 0, 1, 2, 3, 4, 5]`. -/
theorem C5_padding_examples :
    pad_one 7 .post .pre [1, 2, 3] = [1, 2, 3, 0, 0, 0, 0] ∧
    pad_one 7 .post .pre [1, 2, 3, 4, 5] = [1, 2, 3, 4, 5, 0, 0] ∧
    pad_one 7 .pre .pre [1, 2, 3] = [0, 0, 0, 0, 1, 2, 3] ∧
    pad_one 7 .pre .pre [1, 2, 3, 4, 5] = [0, 0, 1, 2, 3, 4, 5] :=
  ⟨rfl, rfl, rfl, rfl⟩

/-- Claim C7: an already-padded sequence (length exactly `maxlen`) passes
through the padding/truncation operation unchanged, and consequently
pad-then-pad with the same `maxlen` is idempotent. -/
theorem C7_pad_idempotent (s : List Nat) (maxlen : Nat) (p t : Side)
    (h : s.length = maxlen) :
    pad_one maxlen p t s = s ∧
    pad_one maxlen p t (pad_one maxlen p t s) = pad_one maxlen p t s :=
  ⟨pad_one_of_length_eq maxlen p t s h,
   pad_one_of_length_eq maxlen p t _ (pad_one_length maxlen p t s)⟩

/-- Concrete instantiation of C7 at `[5, 6, 7]` and `maxlen = 3`. -/
theorem C7_witness :
    ([5, 6, 7] : List Nat).length = 3 ∧ pad_one 3 .post .pre [5, 6, 7] = [5, 6, 7] :=
  ⟨by decide, (C7_pad_idempotent [5, 6, 7] 3 .post .pre (by decide)).1⟩

/-! ## Claims about the concrete notebook scenario -/

/-- Claim C1: on the notebook corpus with no `num_words` and no OOV token,
the tokens `this`, `is`, `the`, `sentence` each occur 3 times and receive
the four lowest real ids 1-4; encoding the first string yields exactly 5
elements; and padding that encoding to length 7 with `padding_side = post`
appends exactly two zeros at the end. -/
theorem C1_first_scenario :
    (("this", 3) ∈ word_counts texts ∧ ("is", 3) ∈ word_counts texts ∧
      ("the", 3) ∈ word_counts texts ∧ ("sentence", 3) ∈ word_counts texts) ∧
    (tokenizer.word_index "this" = some 1 ∧ tokenizer.word_index "is" = some 2 ∧
      tokenizer.word_index "the" = some 3 ∧ tokenizer.word_index "sentence" = some 4) ∧
    (tokenizer.texts_to_sequences_one "This is the first sentence").length = 5 ∧
    pad_one 7 .post .pre (tokenizer.texts_to_sequences_one "This is the first sentence")
      = tokenizer.texts_to_sequences_one "This is the first sentence" ++ [0, 0] := by
  decide

/-- Claim C2 counterexample: with `num_words = 5` and `oov_token = '<OOV>'`,
the token `sentence` holds real id 5 in the word index, yet the encoding of
`"This is the first sentence"` is `[2, 3, 4, 1, 1]` — its last element is
the OOV id 1, not the real id 5 — so `first` is not the only token mapped
to the OOV id. -/
theorem C2_counterexample :
    tokenizer2.word_index "sentence" = some 5 ∧
    tokenizer2.texts_to_sequences_one "This is the first sentence" = [2, 3, 4, 1, 1] ∧
    tokenizer2.texts_to_sequences_one "This is the first sentence" ≠ [2, 3, 4, 1, 5] := by
  decide

/-- Claim C2 (amended): building with `num_words = 5` and
`oov_token = '<OOV>'` assigns id 1 to the OOV marker and ids 2-5 to the
four most frequent real tokens; but the encoder keeps only ids strictly
below `num_words`, so encoding `"This is the first sentence"` maps both
`first` and `sentence` (id 5) to the OOV id, yielding `[2, 3, 4, 1, 1]` as
recorded in the notebook. -/
theorem C2_amended :
    (tokenizer2.word_index "<OOV>" = some 1 ∧
      tokenizer2.word_index "this" = some 2 ∧
      tokenizer2.word_index "is" = some 3 ∧
      tokenizer2.word_index "the" = some 4 ∧
      tokenizer2.word_index "sentence" = some 5) ∧
    tokenizer2.texts_to_sequences_one "This is the first sentence" = [2, 3, 4, 1, 1] ∧
    sequences2 = [[2, 3, 4, 1, 1], [2, 3, 4, 1, 1], [2, 3, 4, 1, 1, 1, 1, 1, 1]] := by
  decide

/-! ## Helper lemmas about vocabulary ranking -/

theorem mem_insertByCount {x p : String × Nat} {l : List (String × Nat)} :
    x ∈ insertByCount p l ↔ x = p ∨ x ∈ l := by
  induction l with
  | nil => simp [insertByCount]
  | cons q rest ih =>
    by_cases h : q.2 ≤ p.2
    · simp [insertByCount, h]
    · simp only [insertByCount, if_neg h, List.mem_cons, ih]
      tauto

theorem perm_insertByCount (p : String × Nat) (l : List (String × Nat)) :
    List.Perm (insertByCount p l) (p :: l) := by
  induction l with
  | nil => simp [insertByCount]
  | cons q rest ih =>
    by_cases h : q.2 ≤ p.2
    · simp [insertByCount, h]
    · have h1 : List.Perm (q :: insertByCount p rest) (q :: p :: rest) := ih.cons q
      have h2 := List.Perm.swap p q rest
      simpa [insertByCount, h] using h1.trans h2

theorem perm_sortByCountDesc (l : List (String × Nat)) :
    List.Perm (sortByCountDesc l) l := by
  induction l with
  | nil => simp [sortByCountDesc]
  | cons p rest ih =>
    exact (perm_insertByCount p (sortByCountDesc rest)).trans (ih.cons p)

theorem pairwise_insertByCount (p : String × Nat) (l : List (String × Nat))
    (h : l.Pairwise (fun a b => b.2 ≤ a.2)) :
    (insertByCount p l).Pairwise (fun a b => b.2 ≤ a.2) := by
  induction l with
  | nil => simp [insertByCount]
  | cons q rest ih =>
    rw [List.pairwise_cons] at h
    obtain ⟨h1, h2⟩ := h
    by_cases hq : q.2 ≤ p.2
    · have he : insertByCount p (q :: rest) = p :: q :: rest := by
        simp [insertByCount, hq]
      rw [he, List.pairwise_cons]
      refine ⟨?_, List.Pairwise.cons h1 h2⟩
      intro x hx
      rcases List.mem_cons.mp hx with rfl | hx
      · exact hq
      · exact le_trans (h1 x hx) hq
    · have he : insertByCount p (q :: rest) = q :: insertByCount p rest := by
        simp [insertByCount, hq]
      rw [he, List.pairwise_cons]
      refine ⟨?_, ih h2⟩
      intro x hx
      rcases mem_insertByCount.mp hx with rfl | hx
      · exact le_of_lt (lt_of_not_le hq)
      · exact h1 x hx

theorem pairwise_sortByCountDesc (l : List (String × Nat)) :
    (sortByCountDesc l).Pairwise (fun a b => b.2 ≤ a.2) := by
  induction l with
  | nil => simp [sortByCountDesc]
  | cons p rest ih => exact pairwise_insertByCount p _ ih

theorem filter_insertByCount (p : String × Nat) (l : List (String × Nat)) (c : Nat) :
    (insertByCount p l).filter (fun q => q.2 = c)
      = if p.2 = c then p :: l.filter (fun q => q.2 = c)
        else l.filter (fun q => q.2 = c) := by
  induction l with
  | nil => by_cases hp : p.2 = c <;> simp [insertByCount, hp]
  | cons q rest ih =>
    by_cases hq : q.2 ≤ p.2
    · rw [insertByCount, if_pos hq]
      by_cases hp : p.2 = c <;> by_cases hqc : q.2 = c <;>
        simp [List.filter_cons, hp, hqc]
    · rw [insertByCount, if_neg hq]
      have hlt : p.2 < q.2 := lt_of_not_le hq
      by_cases hqc : q.2 = c
      · have hp : ¬ p.2 = c := by omega
        simp [List.filter_cons, hqc, hp, ih]
      · by_cases hp : p.2 = c <;>
          simp [List.filter_cons, hqc, hp, ih]

theorem filter_sortByCountDesc (l : List (String × Nat)) (c : Nat) :
    (sortByCountDesc l).filter (fun q => q.2 = c) = l.filter (fun q => q.2 = c) := by
  induction l with
  | nil => simp [sortByCountDesc]
  | cons p rest ih =>
    by_cases hp : p.2 = c <;>
      simp [sortByCountDesc, filter_insertByCount, hp, ih, List.filter_cons]

/-! ## Claims about vocabulary building -/

/-- Claim C6: the vocabulary builder ranks tokens by descending corpus
frequency (the ranked list is a permutation of the counted tokens whose
counts are non-increasing along increasing id positions), breaks ties by
order of first appearance (filtering the ranked list at any fixed count
recovers the first-seen order of the counted tokens), and the token at the
head of the ranking — one of maximal frequency — receives the lowest real
id 1 when no OOV token is configured. -/
theorem C6_frequency_ranking (ts : List String) (nw : Option Nat) :
    List.Perm (sortByCountDesc (word_counts ts)) (word_counts ts) ∧
    (sortByCountDesc (word_counts ts)).Pairwise (fun a b => b.2 ≤ a.2) ∧
    (∀ c : Nat, (sortByCountDesc (word_counts ts)).filter (fun q => q.2 = c)
        = (word_counts ts).filter (fun q => q.2 = c)) ∧
    ∀ hd ∈ (sortByCountDesc (word_counts ts)).head?,
      (∀ p ∈ word_counts ts, p.2 ≤ hd.2) ∧
      (fit_on_texts nw none ts).word_index hd.1 = some 1 := by
  refine ⟨perm_sortByCountDesc _, pairwise_sortByCountDesc _,
    fun c => filter_sortByCountDesc _ c, ?_⟩
  intro hd hhd
  cases hsort : sortByCountDesc (word_counts ts) with
  | nil => rw [hsort] at hhd; simp at hhd
  | cons a tl =>
    rw [hsort] at hhd
    simp only [List.head?_cons, Option.mem_def, Option.some.injEq] at hhd
    subst hhd
    constructor
    · intro p hp
      have hmem : p ∈ sortByCountDesc (word_counts ts) :=
        (perm_sortByCountDesc (word_counts ts)).symm.subset hp
      rw [hsort] at hmem
      have hpw := pairwise_sortByCountDesc (word_counts ts)
      rw [hsort, List.pairwise_cons] at hpw
      rcases List.mem_cons.mp hmem with rfl | hmem
      · exact le_refl _
      · exact hpw.1 p hmem
    · simp [fit_on_texts, Tokenizer.word_index, hsort, lookup1]

/-- Concrete instantiation of C6 on the notebook corpus: the head of the
ranking is `("this", 3)`, its count dominates that of `("words", 1)`, and
`this` receives id 1. -/
theorem C6_witness :
    (("words", 1) : String × Nat).2 ≤ (("this", 3) : String × Nat).2 ∧
    (fit_on_texts none none texts).word_index "this" = some 1 := by
  have h := (C6_frequency_ranking texts none).2.2.2 ("this", 3) (by decide)
  exact ⟨h.1 ("words", 1) (by decide), h.2⟩

/-- Claim C8: vocabulary building is deterministic — two tokenizers built
by `fit_on_texts` from the same corpus and configuration have the same
ranked vocabulary and the same token→id mapping. -/
theorem C8_deterministic (nw : Option Nat) (oov : Option String)
    (corpus : List String) (tk1 tk2 : Tokenizer)
    (h1 : tk1 = fit_on_texts nw oov corpus)
    (h2 : tk2 = fit_on_texts nw oov corpus) :
    tk1.sorted_voc = tk2.sorted_voc ∧ ∀ w, tk1.word_index w = tk2.word_index w := by
  subst h1; subst h2; exact ⟨rfl, fun _ => rfl⟩

/-- Concrete instantiation of C8: two builds of the capped OOV tokenizer
agree on the id of `the`. -/
theorem C8_witness :
    (fit_on_texts (some 5) (some "<OOV>") texts).word_index "the"
      = tokenizer2.word_index "the" :=
  (C8_deterministic (some 5) (some "<OOV>") texts
    (fit_on_texts (some 5) (some "<OOV>") texts) tokenizer2 rfl rfl).2 "the"

/-! ## Claims about the encoder -/

theorem filterMap_eq_flatten_map {α β : Type} (f : α → Option β) (l : List α) :
    l.filterMap f = (l.map (fun a => (f a).toList)).flatten := by
  induction l with
  | nil => rfl
  | cons a t ih =>
    cases h : f a <;> simp [List.filterMap_cons, h, ih]

/-- Claim C9: the encoder processes the tokens of a string in input order
(the encoding is the in-order concatenation of each token's individual
result); a token absent from the word index is silently dropped when no OOV
token is configured and is replaced by the OOV id when one is; and a token
holding an id that survives any configured `num_words` cap always maps to
that id. -/
theorem C9_encoder_behavior (tk : Tokenizer) (text : String) :
    tk.texts_to_sequences_one text
      = ((text_to_word_sequence text).map (fun w => (tk.encode_word w).toList)).flatten ∧
    (∀ w, tk.word_index w = none → tk.oov_token = none → tk.encode_word w = none) ∧
    (∀ w t, tk.word_index w = none → tk.oov_token = some t →
      tk.encode_word w = tk.word_index t) ∧
    (∀ w i, tk.word_index w = some i → (∀ n, tk.num_words = some n → i < n) →
      tk.encode_word w = some i) := by
  refine ⟨filterMap_eq_flatten_map _ _, ?_, ?_, ?_⟩
  · intro w hw ho
    simp [Tokenizer.encode_word, hw, Tokenizer.oov_index, ho]
  · intro w t hw ho
    simp [Tokenizer.encode_word, hw, Tokenizer.oov_index, ho]
  · intro w i hw hn
    cases hnw : tk.num_words with
    | none => simp [Tokenizer.encode_word, hw, hnw]
    | some n =>
      have hi := hn n hnw
      rw [Tokenizer.encode_word, hw, hnw]
      exact if_neg (by omega)

/-- Concrete instantiation of C9: an unknown token is dropped by the plain
tokenizer and mapped to the OOV id by the OOV tokenizer, and `sentence`
(id 4, no `num_words` cap) keeps its id. -/
theorem C9_witness :
    tokenizer.encode_word "missing" = none ∧
    tokenizer2.encode_word "missing" = tokenizer2.word_index "<OOV>" ∧
    tokenizer.encode_word "sentence" = some 4 :=
  ⟨(C9_encoder_behavior tokenizer "").2.1 "missing" (by decide) rfl,
   (C9_encoder_behavior tokenizer2 "").2.2.1 "missing" "<OOV>" (by decide) rfl,
   (C9_encoder_behavior tokenizer "").2.2.2 "sentence" 4 (by decide)
     (fun n hn => by simp [tokenizer, fit_on_texts] at hn)⟩

theorem length_filterMap_of_isSome {α β : Type} (f : α → Option β) (l : List α)
    (h : ∀ a ∈ l, (f a).isSome) : (l.filterMap f).length = l.length := by
  induction l with
  | nil => rfl
  | cons a t ih =>
    have ha := h a (List.mem_cons_self a t)
    cases hfa : f a with
    | none => rw [hfa] at ha; simp at ha
    | some b =>
      have ht := ih (fun x hx => h x (List.mem_cons_of_mem a hx))
      simp [List.filterMap_cons, hfa, ht]

/-- Claim C10: when an OOV token is configured at build time, encoding
never shortens a string — the encoded sequence has exactly one id per token
of the input, every unknown or frequency-capped token being replaced by the
OOV id rather than dropped. -/
theorem C10_oov_preserves_length (nw : Option Nat) (ot : String)
    (corpus : List String) (text : String) :
    ((fit_on_texts nw (some ot) corpus).texts_to_sequences_one text).length
      = (text_to_word_sequence text).length := by
  apply length_filterMap_of_isSome
  intro w _
  have hoov : (fit_on_texts nw (some ot) corpus).oov_index = some 1 := by
    simp [Tokenizer.oov_index, fit_on_texts, Tokenizer.word_index, lookup1]
  cases hwi : (fit_on_texts nw (some ot) corpus).word_index w with
  | none => simp [Tokenizer.encode_word, hwi, hoov]
  | some i =>
    cases hnw : (fit_on_texts nw (some ot) corpus).num_words with
    | none => simp [Tokenizer.encode_word, hwi, hnw]
    | some n =>
      by_cases hle : n ≤ i <;>
        simp [Tokenizer.encode_word, hwi, hnw, hle, hoov]



